import Mathlib

/-!
Verification of the Hanoi-Foodie data layer.

The development shallowly embeds the three Python modules of the repository:

- db_seed_postgres.py : schema creation (create_tables), the destructive
  reset (TRUNCATE ... CASCADE) and the seeding bulk load (seed_database);
- add_record.py : the appending bulk load (add_records);
- app.py : the read queries (load_data and its three SELECTs) and the pure
  in-memory helpers (get_restaurants_by_dish, get_dishes_by_restaurant,
  get_price).

The persistent store is a record of three tables (lists of rows) plus the
serial counters and the table-existence flags; one transaction is one pure
function from the committed state to a pair of the raised exception, if
any, and the committed state after the run (rollback on error, commit on
success).
-/

/-- A restaurant fixture record, with the columns inserted by the scripts.
The rating column is FLOAT in the schema; no verified property touches its
arithmetic, so it is carried as an exact rational. -/
structure Restaurant where
  name : String
  address : String
  website : Option String
  google_url : Option String
  rating : Option Rat
  phone : Option String
  opening_hours : Option String
  images : List String
  notes : Option String
deriving Repr, DecidableEq

/-- A dish fixture record, with the columns inserted by the scripts. -/
structure Dish where
  name : String
  description : Option String
  images : List String
  notes : Option String
deriving Repr, DecidableEq

/-- A restaurant-dish link fixture record: restaurant name, dish name and
the price, as read from data/restaurant_dishes.json. -/
structure LinkRec where
  restaurant : String
  dish : String
  price : Int
deriving Repr, DecidableEq

/-- A row of the restaurants table: the SERIAL id plus the inserted
columns. -/
structure RestRow where
  id : Nat
  fields : Restaurant
deriving Repr, DecidableEq

/-- A row of the dishes table: the SERIAL id plus the inserted columns. -/
structure DishRow where
  id : Nat
  fields : Dish
deriving Repr, DecidableEq

/-- A row of the restaurant_dishes table. Primary key is the id pair;
both ids are foreign keys into restaurants and dishes. -/
structure LinkRow where
  restaurant_id : Nat
  dish_id : Nat
  price : Int
deriving Repr, DecidableEq

/-- The persistent store: three tables in insertion order, the two SERIAL
counters (TRUNCATE does not restart them), and one existence flag per
table (CREATE TABLE IF NOT EXISTS). -/
structure DB where
  schemaRestaurants : Bool
  schemaDishes : Bool
  schemaLinks : Bool
  restaurants : List RestRow
  dishes : List DishRow
  links : List LinkRow
  nextRestaurantId : Nat
  nextDishId : Nat
deriving Repr, DecidableEq

/-- A store with the schema absent, no rows, and fresh SERIAL counters. -/
def DB.empty : DB :=
  { schemaRestaurants := false
    schemaDishes := false
    schemaLinks := false
    restaurants := []
    dishes := []
    links := []
    nextRestaurantId := 1
    nextDishId := 1 }

/-- The exceptions a bulk-load run can raise: a psycopg2.Error from a
failed SQL statement (a StoreError in the terms of the spec), or the
KeyError, a LookupError, raised by a failed Python dict lookup; the failed
key is recorded. -/
inductive SeedError where
  | storeError
  | lookupError (key : String)
deriving Repr, DecidableEq

/-- The row of the joined view produced by the third SELECT of load_data:
restaurant name, dish name, price. -/
structure MenuView where
  restaurant : String
  dish : String
  price : Int
deriving Repr, DecidableEq

/-! ## Read layer (app.py) -/

/-- SELECT of all restaurant rows (app.py lines 30 to 35). -/
def fetchAllRestaurants (db : DB) : List RestRow :=
  db.restaurants

/-- SELECT of all dish rows (app.py lines 38 to 42). -/
def fetchAllDishes (db : DB) : List DishRow :=
  db.dishes

/-- The inner join of app.py lines 45 to 51: for each restaurant_dishes
row, the restaurant row with the matching restaurant_id and the dish row
with the matching dish_id give one output record of names and price. -/
def fetchAllMenuEntries (db : DB) : List MenuView :=
  db.links.flatMap fun rd =>
    db.restaurants.flatMap fun r =>
      db.dishes.filterMap fun d =>
        if rd.restaurant_id = r.id ∧ rd.dish_id = d.id then
          some { restaurant := r.fields.name, dish := d.fields.name, price := rd.price }
        else none

/-- load_data (app.py): the three read queries bundled. -/
def load_data (db : DB) : List RestRow × List DishRow × List MenuView :=
  (fetchAllRestaurants db, fetchAllDishes db, fetchAllMenuEntries db)

/-- get_restaurants_by_dish (app.py lines 55 to 58): the restaurant names
of the relations for the dish, then the restaurants whose name is among
them. -/
def get_restaurants_by_dish (dish_name : String) (restaurants : List RestRow)
    (relations : List MenuView) : List RestRow :=
  let restaurant_names := (relations.filter fun r => r.dish = dish_name).map (·.restaurant)
  restaurants.filter fun r => r.fields.name ∈ restaurant_names

/-- get_dishes_by_restaurant (app.py lines 60 to 63): the dish names of
the relations for the restaurant, then the dishes whose name is among
them. -/
def get_dishes_by_restaurant (restaurant_name : String) (dishes : List DishRow)
    (relations : List MenuView) : List DishRow :=
  let dish_names := (relations.filter fun r => r.restaurant = restaurant_name).map (·.dish)
  dishes.filter fun d => d.fields.name ∈ dish_names

/-- get_price (app.py lines 65 to 70): the loop over relations returning
the first price whose restaurant and dish both match, and 0 after the
loop. -/
def get_price (restaurant_name dish_name : String) : List MenuView → Int
  | [] => 0
  | r :: rest =>
      if r.restaurant = restaurant_name ∧ r.dish = dish_name then r.price
      else get_price restaurant_name dish_name rest

/-! ## Write layer (db_seed_postgres.py and add_record.py) -/

/-- create_tables (db_seed_postgres.py lines 39 to 74): three CREATE
TABLE IF NOT EXISTS statements; each makes its table exist and touches no
row. -/
def create_tables (db : DB) : DB :=
  { db with schemaRestaurants := true, schemaDishes := true, schemaLinks := true }

/-- The destructive reset of db_seed_postgres.py line 86: TRUNCATE
restaurants, dishes, restaurant_dishes CASCADE. Removes every row of the
three tables; the SERIAL counters are not restarted. -/
def truncate_all (db : DB) : DB :=
  { db with restaurants := [], dishes := [], links := [] }

/-- One INSERT INTO restaurants ... RETURNING id. Fails with a statement
error when the table does not exist; otherwise appends the row with the
next SERIAL id and returns that id. -/
def insertRestaurantRow (p : DB) (r : Restaurant) : Except SeedError (DB × Nat) :=
  if p.schemaRestaurants then
    .ok ({ p with
            restaurants := p.restaurants ++ [{ id := p.nextRestaurantId, fields := r }],
            nextRestaurantId := p.nextRestaurantId + 1 },
         p.nextRestaurantId)
  else .error .storeError

/-- One INSERT INTO dishes ... RETURNING id, as insertRestaurantRow. -/
def insertDishRow (p : DB) (d : Dish) : Except SeedError (DB × Nat) :=
  if p.schemaDishes then
    .ok ({ p with
            dishes := p.dishes ++ [{ id := p.nextDishId, fields := d }],
            nextDishId := p.nextDishId + 1 },
         p.nextDishId)
  else .error .storeError

/-- One INSERT INTO restaurant_dishes. Fails with a statement error when
the table does not exist, when the primary key (restaurant_id, dish_id)
is already present, or when a foreign key does not resolve; otherwise
appends the row. -/
def insertLinkRow (p : DB) (rid did : Nat) (price : Int) : Except SeedError DB :=
  if p.schemaLinks
      ∧ (∀ l ∈ p.links, ¬(l.restaurant_id = rid ∧ l.dish_id = did))
      ∧ (∃ r ∈ p.restaurants, r.id = rid)
      ∧ (∃ d ∈ p.dishes, d.id = did) then
    .ok { p with links := p.links ++ [{ restaurant_id := rid, dish_id := did, price := price }] }
  else .error .storeError

/-- The restaurant loop shared by both scripts (db_seed_postgres.py lines
90 to 97, add_record.py lines 47 to 57): insert each record in input
order and bind its name to the returned id in the Python dict, an
assignment that overwrites any earlier binding of the same name. The dict
is modelled as an association list consed at the front, looked up front
first, so the newest binding wins. -/
def insertRestaurants (p : DB) (dict : List (String × Nat)) :
    List Restaurant → Except SeedError (DB × List (String × Nat))
  | [] => .ok (p, dict)
  | r :: rest =>
      match insertRestaurantRow p r with
      | .error e => .error e
      | .ok (p', i) => insertRestaurants p' ((r.name, i) :: dict) rest

/-- The dish loop shared by both scripts (db_seed_postgres.py lines 100
to 107, add_record.py lines 60 to 68), as insertRestaurants. -/
def insertDishes (p : DB) (dict : List (String × Nat)) :
    List Dish → Except SeedError (DB × List (String × Nat))
  | [] => .ok (p, dict)
  | d :: rest =>
      match insertDishRow p d with
      | .error e => .error e
      | .ok (p', i) => insertDishes p' ((d.name, i) :: dict) rest

/-- The link loop shared by both scripts (db_seed_postgres.py lines 110
to 114, add_record.py lines 71 to 78): the restaurant name is looked up
first, then the dish name; a missing key raises KeyError, a LookupError,
before the INSERT runs; otherwise the row is inserted with the resolved
ids and the given price. -/
def insertLinks (p : DB) (rdict ddict : List (String × Nat)) :
    List LinkRec → Except SeedError DB
  | [] => .ok p
  | l :: rest =>
      match rdict.lookup l.restaurant with
      | none => .error (.lookupError l.restaurant)
      | some rid =>
          match ddict.lookup l.dish with
          | none => .error (.lookupError l.dish)
          | some did =>
              match insertLinkRow p rid did l.price with
              | .error e => .error e
              | .ok p' => insertLinks p' rdict ddict rest

/-- The three insert loops run in sequence, each starting from an empty
dict, the body the two scripts share (db_seed_postgres.py lines 88 to
114, add_record.py lines 46 to 78). -/
def runInserts (p : DB) (restaurants : List Restaurant) (dishes : List Dish)
    (restaurant_dishes : List LinkRec) : Except SeedError DB :=
  match insertRestaurants p [] restaurants with
  | .error e => .error e
  | .ok (p1, rdict) =>
      match insertDishes p1 [] dishes with
      | .error e => .error e
      | .ok (p2, ddict) => insertLinks p2 rdict ddict restaurant_dishes

/-- seed_database (db_seed_postgres.py lines 76 to 124): one transaction
that creates the tables, truncates all three, optionally runs the three
insert loops, and commits. The first component is the outcome raised to
the caller; the second is the committed store after the run. A
psycopg2.Error is caught, the transaction rolled back and the error
re-raised; a KeyError escapes the except clause and the connection is
closed without commit, so in either error case the committed store is the
original one. -/
def seed_database (db : DB) (restaurants : List Restaurant) (dishes : List Dish)
    (restaurant_dishes : List LinkRec) (add_sample_data : Bool) :
    Except SeedError Unit × DB :=
  if add_sample_data then
    match runInserts (truncate_all (create_tables db)) restaurants dishes restaurant_dishes with
    | .error e => (.error e, db)
    | .ok p3 => (.ok (), p3)
  else (.ok (), truncate_all (create_tables db))

/-- add_records (add_record.py lines 39 to 88): one transaction that runs
the three insert loops against the existing tables and commits; no table
creation and no truncation. Error handling is as in seed_database: on any
raised error the committed store is the original one. -/
def add_records (db : DB) (restaurants : List Restaurant) (dishes : List Dish)
    (restaurant_dishes : List LinkRec) : Except SeedError Unit × DB :=
  match runInserts db restaurants dishes restaurant_dishes with
  | .error e => (.error e, db)
  | .ok p3 => (.ok (), p3)

/-! ## Closed forms used in the statements -/

/-- The restaurant rows a run of the restaurant loop appends: the input
records in input order, with consecutive SERIAL ids from n0. -/
def restRowsFrom (n0 : Nat) : List Restaurant → List RestRow
  | [] => []
  | r :: rest => { id := n0, fields := r } :: restRowsFrom (n0 + 1) rest

/-- The dish rows a run of the dish loop appends, as restRowsFrom. -/
def dishRowsFrom (n0 : Nat) : List Dish → List DishRow
  | [] => []
  | d :: rest => { id := n0, fields := d } :: dishRowsFrom (n0 + 1) rest

/-- The association list the restaurant loop builds, newest binding
first. -/
def restDictFrom (n0 : Nat) : List Restaurant → List (String × Nat)
  | [] => []
  | r :: rest => restDictFrom (n0 + 1) rest ++ [(r.name, n0)]

/-- The association list the dish loop builds, newest binding first. -/
def dishDictFrom (n0 : Nat) : List Dish → List (String × Nat)
  | [] => []
  | d :: rest => dishDictFrom (n0 + 1) rest ++ [(d.name, n0)]

/-- Shared sample fixtures for concrete runs. -/
def mkRestaurant (n : String) : Restaurant :=
  { name := n, address := "addr", website := none, google_url := none, rating := none,
    phone := none, opening_hours := none, images := [], notes := none }

/-- Shared sample dish fixture for concrete runs. -/
def mkDish (n : String) : Dish :=
  { name := n, description := none, images := [], notes := none }

/-- A small populated store used as a concrete instance: one restaurant,
one dish, one priced link between them. -/
def dbSample : DB :=
  { schemaRestaurants := true, schemaDishes := true, schemaLinks := true,
    restaurants := [{ id := 1, fields := mkRestaurant "A" }],
    dishes := [{ id := 1, fields := mkDish "B" }],
    links := [{ restaurant_id := 1, dish_id := 1, price := 5 }],
    nextRestaurantId := 2, nextDishId := 2 }

/-! ## The claims -/

/-- C8: schema creation is idempotent. Running create_tables a second
time is the identity on the already-initialized store, the operation is
total (it raises nothing), the table set is the same fixed three (the
existence flags are Booleans, so no duplicate table can arise), and no
row of any table is touched. -/
theorem create_tables_idempotent (db : DB) :
    create_tables (create_tables db) = create_tables db
    ∧ (create_tables db).restaurants = db.restaurants
    ∧ (create_tables db).dishes = db.dishes
    ∧ (create_tables db).links = db.links :=
  ⟨rfl, rfl, rfl, rfl⟩

/-- C3: get_price returns the price of the first entry of the relations
list matching both the restaurant name and the dish name when one exists,
and the sentinel 0 when no entry matches. -/
theorem get_price_first_match_or_zero (restaurant_name dish_name : String)
    (relations : List MenuView) :
    (∀ e, relations.find?
        (fun r => r.restaurant == restaurant_name && r.dish == dish_name) = some e →
        get_price restaurant_name dish_name relations = e.price)
    ∧ (relations.find?
        (fun r => r.restaurant == restaurant_name && r.dish == dish_name) = none →
        get_price restaurant_name dish_name relations = 0) := by
  induction relations with
  | nil => exact ⟨fun e h => (nomatch h), fun _ => rfl⟩
  | cons r rest ih =>
      by_cases hc : r.restaurant = restaurant_name ∧ r.dish = dish_name
      · have hb : (r.restaurant == restaurant_name && r.dish == dish_name) = true := by
          simp [hc.1, hc.2]
        refine ⟨fun e h => ?_, fun h => ?_⟩ <;> simp only [List.find?_cons, hb] at h
        · cases h
          simp [get_price, hc]
        · cases h
      · have hb : (r.restaurant == restaurant_name && r.dish == dish_name) = false := by
          rw [Bool.eq_false_iff]
          intro hb
          exact hc (by simpa using hb)
        refine ⟨fun e h => ?_, fun h => ?_⟩ <;> simp only [List.find?_cons, hb] at h
        · simpa [get_price, hc] using ih.1 e h
        · simpa [get_price, hc] using ih.2 h

/-- C3 witness: on a one-entry list the matching pair returns its exact
price, and on the same list a pair absent from it returns the sentinel
0. -/
theorem get_price_first_match_or_zero_witness :
    get_price "A" "B" [{ restaurant := "A", dish := "B", price := 7 }] = 7
    ∧ get_price "A" "C" [{ restaurant := "A", dish := "B", price := 7 }] = 0 :=
  ⟨(get_price_first_match_or_zero "A" "B"
      [{ restaurant := "A", dish := "B", price := 7 }]).1
      { restaurant := "A", dish := "B", price := 7 } rfl,
   (get_price_first_match_or_zero "A" "C"
      [{ restaurant := "A", dish := "B", price := 7 }]).2 rfl⟩

/-- C4: get_dishes_by_restaurant returns exactly the dishes of the given
list whose name appears in a relation for the given restaurant, and
get_restaurants_by_dish symmetrically; both are pure functions of the
in-memory arguments. On the one-restaurant, one-dish, one-link scenario
the dishes at Pho Thin are exactly the single dish Pho Bo. -/
theorem dishesAt_restaurantsServing_exact :
    (∀ (restaurant_name : String) (dishes : List DishRow) (relations : List MenuView)
        (d : DishRow),
        d ∈ get_dishes_by_restaurant restaurant_name dishes relations
          ↔ d ∈ dishes ∧ ∃ e ∈ relations,
              e.restaurant = restaurant_name ∧ e.dish = d.fields.name)
    ∧ (∀ (dish_name : String) (restaurants : List RestRow) (relations : List MenuView)
        (r : RestRow),
        r ∈ get_restaurants_by_dish dish_name restaurants relations
          ↔ r ∈ restaurants ∧ ∃ e ∈ relations,
              e.dish = dish_name ∧ e.restaurant = r.fields.name)
    ∧ (get_dishes_by_restaurant "Pho Thin" [{ id := 1, fields := mkDish "Pho Bo" }]
          [{ restaurant := "Pho Thin", dish := "Pho Bo", price := 50000 }]
        = [{ id := 1, fields := mkDish "Pho Bo" }]) := by
  refine ⟨fun rn dishes relations d => ?_, fun dn restaurants relations r => ?_, rfl⟩
  · simp only [get_dishes_by_restaurant, List.mem_filter, decide_eq_true_eq,
      List.mem_map, List.mem_filter, and_congr_right_iff]
    intro _
    constructor
    · rintro ⟨e, ⟨he, hrn⟩, hname⟩
      exact ⟨e, he, by simpa using hrn, hname⟩
    · rintro ⟨e, he, hrn, hname⟩
      exact ⟨e, ⟨he, by simpa using hrn⟩, hname⟩
  · simp only [get_restaurants_by_dish, List.mem_filter, decide_eq_true_eq,
      List.mem_map, List.mem_filter, and_congr_right_iff]
    intro _
    constructor
    · rintro ⟨e, ⟨he, hdn⟩, hname⟩
      exact ⟨e, he, by simpa using hdn, hname⟩
    · rintro ⟨e, he, hdn, hname⟩
      exact ⟨e, ⟨he, by simpa using hdn⟩, hname⟩

/-- C7: every record of the joined menu-entry view carries a restaurant
name present among the names of fetchAllRestaurants and a dish name
present among the names of fetchAllDishes, for every store state. -/
theorem menu_entries_referential_integrity (db : DB) (mv : MenuView)
    (h : mv ∈ fetchAllMenuEntries db) :
    mv.restaurant ∈ (fetchAllRestaurants db).map (fun r => r.fields.name)
    ∧ mv.dish ∈ (fetchAllDishes db).map (fun d => d.fields.name) := by
  simp only [fetchAllMenuEntries, List.mem_flatMap, List.mem_filterMap] at h
  obtain ⟨rd, -, r, hr, d, hd, hif⟩ := h
  split at hif
  · cases hif
    exact ⟨List.mem_map.2 ⟨r, hr, rfl⟩, List.mem_map.2 ⟨d, hd, rfl⟩⟩
  · cases hif

/-- C7 witness: on the sample store the single joined record resolves to
the sample restaurant and the sample dish. -/
theorem menu_entries_referential_integrity_witness :
    ({ restaurant := "A", dish := "B", price := 5 } : MenuView).restaurant
        ∈ (fetchAllRestaurants dbSample).map (fun r => r.fields.name)
    ∧ ({ restaurant := "A", dish := "B", price := 5 } : MenuView).dish
        ∈ (fetchAllDishes dbSample).map (fun d => d.fields.name) :=
  menu_entries_referential_integrity dbSample _ (by decide)

/-- C10 counterexample: with a catalog list that itself contains a dish
row twice, the single matching menu entry makes that element occur twice
in the output, so the claim that each catalog element occurs at most once
in the output fails as universally stated. -/
theorem helpers_duplicate_catalog_cex :
    (get_dishes_by_restaurant "R"
        [{ id := 1, fields := mkDish "B" }, { id := 1, fields := mkDish "B" }]
        [{ restaurant := "R", dish := "B", price := 1 }]).count
      { id := 1, fields := mkDish "B" } = 2 := rfl

/-- C10 amended: the output of each helper is a sublist, hence a
subsequence, of its catalog argument, so output order is catalog order
and every element occurs at most as often as in the catalog; when the
catalog has no duplicate elements each element occurs at most once, no
matter how many menu entries match its name. -/
theorem helpers_sublist_of_catalog (restaurant_name dish_name : String)
    (restaurants : List RestRow) (dishes : List DishRow) (relations : List MenuView) :
    ((get_dishes_by_restaurant restaurant_name dishes relations).Sublist dishes
      ∧ (dishes.Nodup → (get_dishes_by_restaurant restaurant_name dishes relations).Nodup))
    ∧ ((get_restaurants_by_dish dish_name restaurants relations).Sublist restaurants
      ∧ (restaurants.Nodup →
          (get_restaurants_by_dish dish_name restaurants relations).Nodup)) := by
  refine ⟨⟨?_, fun h => ?_⟩, ⟨?_, fun h => ?_⟩⟩
  · exact List.filter_sublist dishes
  · exact h.filter _
  · exact List.filter_sublist restaurants
  · exact h.filter _

/-- Any raised error leaves the committed store of a seeding run equal to
the original store: the transaction never commits a pending state on an
error path. -/
theorem seed_database_rollback (db : DB) (rs : List Restaurant) (ds : List Dish)
    (ls : List LinkRec) (b : Bool) (e : SeedError)
    (h : (seed_database db rs ds ls b).1 = .error e) :
    (seed_database db rs ds ls b).2 = db := by
  unfold seed_database at h ⊢
  cases b with
  | false => simp at h
  | true =>
      rcases hr : runInserts (truncate_all (create_tables db)) rs ds ls with e1 | p3 <;>
        simp_all

/-- Any raised error leaves the committed store of an appending run equal
to the original store. -/
theorem add_records_rollback (db : DB) (rs : List Restaurant) (ds : List Dish)
    (ls : List LinkRec) (e : SeedError)
    (h : (add_records db rs ds ls).1 = .error e) :
    (add_records db rs ds ls).2 = db := by
  unfold add_records at h ⊢
  rcases hr : runInserts db rs ds ls with e1 | p3 <;> simp_all

/-- C1: when a database-level error (a StoreError) is raised during a
bulk-load run, seeding or appending, it reaches the caller and the
committed store is the original one: no row inserted during that run is
visible afterward. -/
theorem bulk_load_rolls_back_on_store_error (db : DB) (rs : List Restaurant)
    (ds : List Dish) (ls : List LinkRec) (b : Bool) :
    ((seed_database db rs ds ls b).1 = .error .storeError →
        (seed_database db rs ds ls b).2 = db)
    ∧ ((add_records db rs ds ls).1 = .error .storeError →
        (add_records db rs ds ls).2 = db) :=
  ⟨fun h => seed_database_rollback db rs ds ls b .storeError h,
   fun h => add_records_rollback db rs ds ls .storeError h⟩

/-- C1 witness: a seeding run whose link list repeats the same resolved
pair violates the primary key of restaurant_dishes and raises a
StoreError, leaving the empty store empty; an appending run against a
store whose tables do not exist fails its first INSERT, leaving the store
unchanged. -/
theorem bulk_load_rolls_back_on_store_error_witness :
    (seed_database DB.empty [mkRestaurant "A"] [mkDish "B"]
        [{ restaurant := "A", dish := "B", price := 1 },
         { restaurant := "A", dish := "B", price := 1 }] true).2 = DB.empty
    ∧ (add_records DB.empty [mkRestaurant "A"] [] []).2 = DB.empty :=
  ⟨(bulk_load_rolls_back_on_store_error DB.empty [mkRestaurant "A"] [mkDish "B"]
      [{ restaurant := "A", dish := "B", price := 1 },
       { restaurant := "A", dish := "B", price := 1 }] true).1 rfl,
   (bulk_load_rolls_back_on_store_error DB.empty [mkRestaurant "A"] [] [] true).2 rfl⟩

/-- C10 witness: on a duplicate-free two-dish catalog with two menu
entries naming the same dish, the output is the one matching dish taken
once, a sublist of the catalog with no duplicate. -/
theorem helpers_sublist_of_catalog_witness :
    (get_dishes_by_restaurant "R"
        [{ id := 1, fields := mkDish "B" }, { id := 2, fields := mkDish "C" }]
        [{ restaurant := "R", dish := "B", price := 1 },
         { restaurant := "R", dish := "B", price := 2 }]).Nodup :=
  ((helpers_sublist_of_catalog "R" "B" []
      [{ id := 1, fields := mkDish "B" }, { id := 2, fields := mkDish "C" }]
      [{ restaurant := "R", dish := "B", price := 1 },
       { restaurant := "R", dish := "B", price := 2 }]).1).2 (by decide)

/-- Symmetry of String equality tests. -/
theorem beq_symm_str (a b : String) : (a == b) = (b == a) := by
  rw [← Bool.coe_iff_coe]
  simp only [beq_iff_eq]
  exact eq_comm

/-- The head of a filtered list is the first element satisfying the
predicate. -/
theorem head?_filter_eq_find? {α : Type} (p : α → Bool) (l : List α) :
    (l.filter p).head? = l.find? p := by
  induction l with
  | nil => rfl
  | cons a t ih => by_cases h : p a <;> simp [List.filter_cons, List.find?_cons, h, ih]

/-- The last element of a filtered list is the first element of the
reversed list satisfying the predicate. -/
theorem getLast?_filter_eq_find? {α : Type} (p : α → Bool) (l : List α) :
    (l.filter p).getLast? = l.reverse.find? p := by
  rw [← List.head?_reverse, ← List.filter_reverse, head?_filter_eq_find?]

/-- An element produced by getLast? belongs to the list. -/
theorem mem_of_getLast?_eq_some {α : Type} {l : List α} {a : α}
    (h : l.getLast? = some a) : a ∈ l := by
  rw [← List.head?_reverse] at h
  rcases hl : l.reverse with _ | ⟨b, t⟩
  · rw [hl] at h
    cases h
  · rw [hl] at h
    cases h
    have hb : a ∈ l.reverse := by
      rw [hl]
      exact List.mem_cons_self a t
    exact List.mem_reverse.1 hb

/-- Association-list lookup as the value of the first matching pair. -/
theorem lookup_eq_find? (n : String) (l : List (String × Nat)) :
    l.lookup n = (l.find? (fun kv => n == kv.1)).map (fun kv => kv.2) := by
  induction l with
  | nil => rfl
  | cons kv t ih =>
      obtain ⟨k, v⟩ := kv
      by_cases hk : n == k
      · simp [List.lookup, List.find?_cons, hk]
      · simp only [List.lookup, List.find?_cons]
        rw [Bool.not_eq_true] at hk
        simp [hk, ih]

/-- The dict built by the restaurant loop is the reverse of the
name-to-id pairs of the rows it inserts. -/
theorem restDictFrom_eq_reverse (n0 : Nat) (rs : List Restaurant) :
    restDictFrom n0 rs
      = ((restRowsFrom n0 rs).map (fun row => (row.fields.name, row.id))).reverse := by
  induction rs generalizing n0 with
  | nil => rfl
  | cons r rest ih => simp [restDictFrom, restRowsFrom, ih]

/-- Looking a name up in the dict built by the restaurant loop returns
the id of the last-inserted row carrying that name. -/
theorem restDict_lookup (n : String) (n0 : Nat) (rs : List Restaurant) :
    (restDictFrom n0 rs).lookup n
      = (((restRowsFrom n0 rs).filter (fun row => row.fields.name == n)).getLast?).map
          (fun row => row.id) := by
  rw [restDictFrom_eq_reverse, getLast?_filter_eq_find?, lookup_eq_find?,
    ← List.map_reverse, List.find?_map, Option.map_map]
  have hp : ((fun kv : String × Nat => n == kv.1)
        ∘ (fun row : RestRow => (row.fields.name, row.id)))
      = fun row : RestRow => row.fields.name == n := by
    funext row
    exact beq_symm_str n row.fields.name
  rw [hp]
  rfl

/-- A successful restaurant-dict lookup returns the id of a row of the
loop's output whose name is the looked-up name. -/
theorem restDict_lookup_some {n : String} {i : Nat} {n0 : Nat} {rs : List Restaurant}
    (h : (restDictFrom n0 rs).lookup n = some i) :
    ∃ row ∈ restRowsFrom n0 rs, row.id = i ∧ row.fields.name = n := by
  rw [restDict_lookup] at h
  rcases hlast : ((restRowsFrom n0 rs).filter
      (fun row => row.fields.name == n)).getLast? with _ | row
  · rw [hlast] at h
    cases h
  · rw [hlast] at h
    cases h
    have hm := mem_of_getLast?_eq_some hlast
    rw [List.mem_filter] at hm
    exact ⟨row, hm.1, rfl, by simpa using hm.2⟩

/-- The rows of the restaurant loop carry exactly the input records in
input order. -/
theorem restRowsFrom_map_fields (n0 : Nat) (rs : List Restaurant) :
    (restRowsFrom n0 rs).map (fun row => row.fields) = rs := by
  induction rs generalizing n0 with
  | nil => rfl
  | cons r rest ih => simp [restRowsFrom, ih]

/-- Every id of the restaurant loop's output is at least the starting
counter. -/
theorem restRowsFrom_id_ge (n0 : Nat) (rs : List Restaurant) :
    ∀ row ∈ restRowsFrom n0 rs, n0 ≤ row.id := by
  induction rs generalizing n0 with
  | nil =>
      intro row h
      cases h
  | cons r rest ih =>
      intro row h
      rw [restRowsFrom, List.mem_cons] at h
      rcases h with rfl | h
      · exact Nat.le_refl n0
      · exact Nat.le_of_succ_le (ih (n0 + 1) row h)

/-- The ids of the restaurant loop's output are pairwise distinct. -/
theorem restRowsFrom_ids_nodup (n0 : Nat) (rs : List Restaurant) :
    ((restRowsFrom n0 rs).map (fun row => row.id)).Nodup := by
  induction rs generalizing n0 with
  | nil => exact List.nodup_nil
  | cons r rest ih =>
      rw [restRowsFrom, List.map_cons, List.nodup_cons]
      refine ⟨fun hmem => ?_, ih (n0 + 1)⟩
      rw [List.mem_map] at hmem
      obtain ⟨row, hrow, hid⟩ := hmem
      have hid' : row.id = n0 := hid
      have := restRowsFrom_id_ge (n0 + 1) rest row hrow
      omega

/-- Two names resolving to the same id in the restaurant dict are the
same name. -/
theorem restDict_lookup_inj {n1 n2 : String} {i : Nat} {n0 : Nat} {rs : List Restaurant}
    (h1 : (restDictFrom n0 rs).lookup n1 = some i)
    (h2 : (restDictFrom n0 rs).lookup n2 = some i) : n1 = n2 := by
  obtain ⟨row1, hm1, hid1, hn1⟩ := restDict_lookup_some h1
  obtain ⟨row2, hm2, hid2, hn2⟩ := restDict_lookup_some h2
  have heq : row1 = row2 :=
    List.inj_on_of_nodup_map (restRowsFrom_ids_nodup n0 rs) hm1 hm2 (by rw [hid1, hid2])
  rw [← hn1, ← hn2, heq]

/-- A name absent from the input records is absent from the restaurant
dict. -/
theorem restDict_lookup_none {n : String} {n0 : Nat} {rs : List Restaurant}
    (h : n ∉ rs.map Restaurant.name) : (restDictFrom n0 rs).lookup n = none := by
  rcases hl : (restDictFrom n0 rs).lookup n with _ | i
  · rfl
  · obtain ⟨row, hm, -, hn⟩ := restDict_lookup_some hl
    exfalso
    apply h
    rw [← restRowsFrom_map_fields n0 rs, List.map_map]
    exact List.mem_map.2 ⟨row, hm, hn⟩

/-- Closed form of the restaurant loop when its table exists: no error,
the rows appended at the end in input order with consecutive ids, the
counter advanced by the number of records, the dict pushed in front of
the starting dict, and nothing else changed. -/
theorem insertRestaurants_closed (p : DB) (dict : List (String × Nat))
    (rs : List Restaurant) (h : p.schemaRestaurants = true) :
    insertRestaurants p dict rs =
      .ok ({ p with
             restaurants := p.restaurants ++ restRowsFrom p.nextRestaurantId rs,
             nextRestaurantId := p.nextRestaurantId + rs.length },
           restDictFrom p.nextRestaurantId rs ++ dict) := by
  induction rs generalizing p dict with
  | nil => simp [insertRestaurants, restRowsFrom, restDictFrom]
  | cons r rest ih =>
      rw [show insertRestaurants p dict (r :: rest)
            = insertRestaurants
                { p with
                  restaurants :=
                    p.restaurants ++ [{ id := p.nextRestaurantId, fields := r }],
                  nextRestaurantId := p.nextRestaurantId + 1 }
                ((r.name, p.nextRestaurantId) :: dict) rest
          from by simp [insertRestaurants, insertRestaurantRow, h]]
      have step := ih
        { p with
          restaurants := p.restaurants ++ [{ id := p.nextRestaurantId, fields := r }],
          nextRestaurantId := p.nextRestaurantId + 1 }
        ((r.name, p.nextRestaurantId) :: dict) h
      rw [step]
      simp [restRowsFrom, restDictFrom, List.append_assoc]
      try omega

/-- The dict built by the dish loop is the reverse of the name-to-id
pairs of the rows it inserts. -/
theorem dishDictFrom_eq_reverse (n0 : Nat) (ds : List Dish) :
    dishDictFrom n0 ds
      = ((dishRowsFrom n0 ds).map (fun row => (row.fields.name, row.id))).reverse := by
  induction ds generalizing n0 with
  | nil => rfl
  | cons d rest ih => simp [dishDictFrom, dishRowsFrom, ih]

/-- Looking a name up in the dict built by the dish loop returns the id
of the last-inserted row carrying that name. -/
theorem dishDict_lookup (n : String) (n0 : Nat) (ds : List Dish) :
    (dishDictFrom n0 ds).lookup n
      = (((dishRowsFrom n0 ds).filter (fun row => row.fields.name == n)).getLast?).map
          (fun row => row.id) := by
  rw [dishDictFrom_eq_reverse, getLast?_filter_eq_find?, lookup_eq_find?,
    ← List.map_reverse, List.find?_map, Option.map_map]
  have hp : ((fun kv : String × Nat => n == kv.1)
        ∘ (fun row : DishRow => (row.fields.name, row.id)))
      = fun row : DishRow => row.fields.name == n := by
    funext row
    exact beq_symm_str n row.fields.name
  rw [hp]
  rfl

/-- A successful dish-dict lookup returns the id of a row of the loop's
output whose name is the looked-up name. -/
theorem dishDict_lookup_some {n : String} {i : Nat} {n0 : Nat} {ds : List Dish}
    (h : (dishDictFrom n0 ds).lookup n = some i) :
    ∃ row ∈ dishRowsFrom n0 ds, row.id = i ∧ row.fields.name = n := by
  rw [dishDict_lookup] at h
  rcases hlast : ((dishRowsFrom n0 ds).filter
      (fun row => row.fields.name == n)).getLast? with _ | row
  · rw [hlast] at h
    cases h
  · rw [hlast] at h
    cases h
    have hm := mem_of_getLast?_eq_some hlast
    rw [List.mem_filter] at hm
    exact ⟨row, hm.1, rfl, by simpa using hm.2⟩

/-- The rows of the dish loop carry exactly the input records in input
order. -/
theorem dishRowsFrom_map_fields (n0 : Nat) (ds : List Dish) :
    (dishRowsFrom n0 ds).map (fun row => row.fields) = ds := by
  induction ds generalizing n0 with
  | nil => rfl
  | cons d rest ih => simp [dishRowsFrom, ih]

/-- Every id of the dish loop's output is at least the starting
counter. -/
theorem dishRowsFrom_id_ge (n0 : Nat) (ds : List Dish) :
    ∀ row ∈ dishRowsFrom n0 ds, n0 ≤ row.id := by
  induction ds generalizing n0 with
  | nil =>
      intro row h
      cases h
  | cons d rest ih =>
      intro row h
      rw [dishRowsFrom, List.mem_cons] at h
      rcases h with rfl | h
      · exact Nat.le_refl n0
      · exact Nat.le_of_succ_le (ih (n0 + 1) row h)

/-- The ids of the dish loop's output are pairwise distinct. -/
theorem dishRowsFrom_ids_nodup (n0 : Nat) (ds : List Dish) :
    ((dishRowsFrom n0 ds).map (fun row => row.id)).Nodup := by
  induction ds generalizing n0 with
  | nil => exact List.nodup_nil
  | cons d rest ih =>
      rw [dishRowsFrom, List.map_cons, List.nodup_cons]
      refine ⟨fun hmem => ?_, ih (n0 + 1)⟩
      rw [List.mem_map] at hmem
      obtain ⟨row, hrow, hid⟩ := hmem
      have hid' : row.id = n0 := hid
      have := dishRowsFrom_id_ge (n0 + 1) rest row hrow
      omega

/-- Two names resolving to the same id in the dish dict are the same
name. -/
theorem dishDict_lookup_inj {n1 n2 : String} {i : Nat} {n0 : Nat} {ds : List Dish}
    (h1 : (dishDictFrom n0 ds).lookup n1 = some i)
    (h2 : (dishDictFrom n0 ds).lookup n2 = some i) : n1 = n2 := by
  obtain ⟨row1, hm1, hid1, hn1⟩ := dishDict_lookup_some h1
  obtain ⟨row2, hm2, hid2, hn2⟩ := dishDict_lookup_some h2
  have heq : row1 = row2 :=
    List.inj_on_of_nodup_map (dishRowsFrom_ids_nodup n0 ds) hm1 hm2 (by rw [hid1, hid2])
  rw [← hn1, ← hn2, heq]

/-- A name absent from the input records is absent from the dish dict. -/
theorem dishDict_lookup_none {n : String} {n0 : Nat} {ds : List Dish}
    (h : n ∉ ds.map Dish.name) : (dishDictFrom n0 ds).lookup n = none := by
  rcases hl : (dishDictFrom n0 ds).lookup n with _ | i
  · rfl
  · obtain ⟨row, hm, -, hn⟩ := dishDict_lookup_some hl
    exfalso
    apply h
    rw [← dishRowsFrom_map_fields n0 ds, List.map_map]
    exact List.mem_map.2 ⟨row, hm, hn⟩

/-- Closed form of the dish loop when its table exists, as
insertRestaurants_closed. -/
theorem insertDishes_closed (p : DB) (dict : List (String × Nat))
    (ds : List Dish) (h : p.schemaDishes = true) :
    insertDishes p dict ds =
      .ok ({ p with
             dishes := p.dishes ++ dishRowsFrom p.nextDishId ds,
             nextDishId := p.nextDishId + ds.length },
           dishDictFrom p.nextDishId ds ++ dict) := by
  induction ds generalizing p dict with
  | nil => simp [insertDishes, dishRowsFrom, dishDictFrom]
  | cons d rest ih =>
      rw [show insertDishes p dict (d :: rest)
            = insertDishes
                { p with
                  dishes := p.dishes ++ [{ id := p.nextDishId, fields := d }],
                  nextDishId := p.nextDishId + 1 }
                ((d.name, p.nextDishId) :: dict) rest
          from by simp [insertDishes, insertDishRow, h]]
      have step := ih
        { p with
          dishes := p.dishes ++ [{ id := p.nextDishId, fields := d }],
          nextDishId := p.nextDishId + 1 }
        ((d.name, p.nextDishId) :: dict) h
      rw [step]
      simp [dishRowsFrom, dishDictFrom, List.append_assoc]
      try omega

/-- A successful link loop touches nothing but the links table, appends
exactly one row per input link, and every appended row is a resolved
input link. -/
theorem insertLinks_ok {rdict ddict : List (String × Nat)} {ls : List LinkRec}
    {p p' : DB} (h : insertLinks p rdict ddict ls = .ok p') :
    p'.schemaRestaurants = p.schemaRestaurants
    ∧ p'.schemaDishes = p.schemaDishes
    ∧ p'.schemaLinks = p.schemaLinks
    ∧ p'.restaurants = p.restaurants
    ∧ p'.dishes = p.dishes
    ∧ p'.nextRestaurantId = p.nextRestaurantId
    ∧ p'.nextDishId = p.nextDishId
    ∧ p'.links.length = p.links.length + ls.length
    ∧ (∃ t, p'.links = p.links ++ t)
    ∧ (∀ lrow ∈ p'.links, lrow ∈ p.links
        ∨ ∃ l ∈ ls, rdict.lookup l.restaurant = some lrow.restaurant_id
            ∧ ddict.lookup l.dish = some lrow.dish_id ∧ lrow.price = l.price) := by
  induction ls generalizing p with
  | nil =>
      cases h
      exact ⟨rfl, rfl, rfl, rfl, rfl, rfl, rfl, rfl, ⟨[], (List.append_nil _).symm⟩,
        fun lrow hl => .inl hl⟩
  | cons l rest ih =>
      rw [insertLinks] at h
      rcases hr : rdict.lookup l.restaurant with _ | rid
      · rw [hr] at h
        cases h
      · rw [hr] at h
        rcases hd : ddict.lookup l.dish with _ | did
        · rw [hd] at h
          cases h
        · rw [hd] at h
          simp only at h
          rcases hrow : insertLinkRow p rid did l.price with e | p1
          · rw [hrow] at h
            cases h
          · rw [hrow] at h
            simp only at h
            unfold insertLinkRow at hrow
            split at hrow
            · cases hrow
              obtain ⟨h1, h2, h3, h4, h5, h6, h7, h8, ⟨t, h9⟩, h10⟩ := ih h
              refine ⟨h1, h2, h3, h4, h5, h6, h7, ?_, ?_, ?_⟩
              · rw [h8]
                simp only [List.length_append, List.length_cons, List.length_nil]
                omega
              · refine ⟨{ restaurant_id := rid, dish_id := did, price := l.price } :: t, ?_⟩
                rw [h9, List.append_assoc]
                rfl
              · intro lrow hlrow
                rcases h10 lrow hlrow with hin | ⟨l', hl', ha, hb, hc⟩
                · rcases List.mem_append.1 hin with hold | hnew
                  · exact .inl hold
                  · rcases List.mem_cons.1 hnew with rfl | hnil
                    · exact .inr ⟨l, List.mem_cons_self l rest, hr, hd, rfl⟩
                    · cases hnil
                · exact .inr ⟨l', List.mem_cons_of_mem l hl', ha, hb, hc⟩
            · cases hrow

/-- A successful restaurant loop only appends restaurant rows and leaves
every other field of the store unchanged. -/
theorem insertRestaurants_frame {dict dict' : List (String × Nat)}
    {rs : List Restaurant} {p p' : DB}
    (h : insertRestaurants p dict rs = .ok (p', dict')) :
    (∃ t, p'.restaurants = p.restaurants ++ t)
    ∧ p'.dishes = p.dishes
    ∧ p'.links = p.links
    ∧ p'.schemaRestaurants = p.schemaRestaurants
    ∧ p'.schemaDishes = p.schemaDishes
    ∧ p'.schemaLinks = p.schemaLinks
    ∧ p'.nextDishId = p.nextDishId := by
  induction rs generalizing p dict with
  | nil =>
      cases h
      exact ⟨⟨[], (List.append_nil _).symm⟩, rfl, rfl, rfl, rfl, rfl, rfl⟩
  | cons r rest ih =>
      rw [insertRestaurants] at h
      rcases hrow : insertRestaurantRow p r with e | q
      · rw [hrow] at h
        cases h
      · rw [hrow] at h
        simp only at h
        unfold insertRestaurantRow at hrow
        split at hrow
        · cases hrow
          obtain ⟨⟨t, h1⟩, h2, h3, h4, h5, h6, h7⟩ := ih h
          refine ⟨⟨{ id := p.nextRestaurantId, fields := r } :: t, ?_⟩, h2, h3, h4, h5, h6, h7⟩
          rw [h1, List.append_assoc]
          rfl
        · cases hrow

/-- A successful dish loop only appends dish rows and leaves every other
field of the store unchanged. -/
theorem insertDishes_frame {dict dict' : List (String × Nat)}
    {ds : List Dish} {p p' : DB}
    (h : insertDishes p dict ds = .ok (p', dict')) :
    (∃ t, p'.dishes = p.dishes ++ t)
    ∧ p'.restaurants = p.restaurants
    ∧ p'.links = p.links
    ∧ p'.schemaRestaurants = p.schemaRestaurants
    ∧ p'.schemaDishes = p.schemaDishes
    ∧ p'.schemaLinks = p.schemaLinks
    ∧ p'.nextRestaurantId = p.nextRestaurantId := by
  induction ds generalizing p dict with
  | nil =>
      cases h
      exact ⟨⟨[], (List.append_nil _).symm⟩, rfl, rfl, rfl, rfl, rfl, rfl⟩
  | cons d rest ih =>
      rw [insertDishes] at h
      rcases hrow : insertDishRow p d with e | q
      · rw [hrow] at h
        cases h
      · rw [hrow] at h
        simp only at h
        unfold insertDishRow at hrow
        split at hrow
        · cases hrow
          obtain ⟨⟨t, h1⟩, h2, h3, h4, h5, h6, h7⟩ := ih h
          refine ⟨⟨{ id := p.nextDishId, fields := d } :: t, ?_⟩, h2, h3, h4, h5, h6, h7⟩
          rw [h1, List.append_assoc]
          rfl
        · cases hrow


/-- When both entity tables exist, the two entity loops of a bulk-load
run reduce to their closed forms and the run continues with the link
loop on the extended store and the two dicts. -/
theorem runInserts_eq (p : DB) (rs : List Restaurant) (ds : List Dish)
    (ls : List LinkRec) (hr : p.schemaRestaurants = true) (hd : p.schemaDishes = true) :
    runInserts p rs ds ls
      = insertLinks
          { p with
            restaurants := p.restaurants ++ restRowsFrom p.nextRestaurantId rs,
            dishes := p.dishes ++ dishRowsFrom p.nextDishId ds,
            nextRestaurantId := p.nextRestaurantId + rs.length,
            nextDishId := p.nextDishId + ds.length }
          (restDictFrom p.nextRestaurantId rs) (dishDictFrom p.nextDishId ds) ls := by
  unfold runInserts
  rw [insertRestaurants_closed p [] rs hr]
  simp only
  rw [insertDishes_closed
      { p with
        restaurants := p.restaurants ++ restRowsFrom p.nextRestaurantId rs,
        nextRestaurantId := p.nextRestaurantId + rs.length }
      [] ds hd]
  simp only [List.append_nil]

/-- A constant-none filterMap produces nothing. -/
theorem filterMap_none_const {α β : Type} (l : List α) :
    (l.filterMap fun _ => (none : Option β)) = [] := by
  induction l with
  | nil => rfl
  | cons a t ih => simp [List.filterMap_cons, ih]

/-- Length of a filterMap keeping the dish rows with a given id. -/
theorem filterMap_if_id_length (t : List DishRow) (j : Nat) (g : DishRow → MenuView) :
    (t.filterMap fun d => if j = d.id then some (g d) else none).length
      = t.countP (fun d => d.id == j) := by
  induction t with
  | nil => rfl
  | cons d t ih =>
      by_cases hb : j = d.id
      · have hstep : List.filterMap (fun d => if j = d.id then some (g d) else none) (d :: t)
            = g d :: List.filterMap (fun d => if j = d.id then some (g d) else none) t :=
          List.filterMap_cons_some (by simp [hb])
        rw [hstep, List.length_cons, ih, List.countP_cons]
        have hbeq : (d.id == j) = true := by simp [hb]
        rw [hbeq]
        simp
      · rw [List.filterMap_cons_none (by simp [hb]), ih, List.countP_cons]
        have hbeq : (d.id == j) = false := by
          simp only [beq_eq_false_iff_ne, ne_eq]
          exact fun hh => hb hh.symm
        rw [hbeq]
        simp

/-- Length of the inner dish scan of the join, for one link row and one
restaurant row. -/
theorem join_inner_length (ds : List DishRow) (rd : LinkRow) (r : RestRow) :
    (ds.filterMap fun d =>
        if rd.restaurant_id = r.id ∧ rd.dish_id = d.id then
          some { restaurant := r.fields.name, dish := d.fields.name, price := rd.price }
        else (none : Option MenuView)).length
      = if rd.restaurant_id = r.id then ds.countP (fun d => d.id == rd.dish_id) else 0 := by
  have hsplit : (fun d : DishRow =>
      if rd.restaurant_id = r.id ∧ rd.dish_id = d.id then
        some { restaurant := r.fields.name, dish := d.fields.name, price := rd.price }
      else (none : Option MenuView))
    = fun d : DishRow =>
        if rd.restaurant_id = r.id then
          (if rd.dish_id = d.id then
            some { restaurant := r.fields.name, dish := d.fields.name, price := rd.price }
          else none)
        else none := by
    funext d
    by_cases a : rd.restaurant_id = r.id <;> by_cases b : rd.dish_id = d.id <;> simp [a, b]
  rw [hsplit]
  by_cases h1 : rd.restaurant_id = r.id
  · rw [if_pos h1]
    simp only [h1, if_true, eq_self_iff_true]
    exact filterMap_if_id_length ds rd.dish_id _
  · rw [if_neg h1]
    simp only [h1, if_false]
    rw [filterMap_none_const]
    rfl

/-- Length of the full scan of the join for one link row: the number of
restaurant rows with its restaurant id times the number of dish rows
with its dish id. -/
theorem join_outer_length (rrows : List RestRow) (ds : List DishRow) (rd : LinkRow) :
    (rrows.flatMap fun r => ds.filterMap fun d =>
        if rd.restaurant_id = r.id ∧ rd.dish_id = d.id then
          some { restaurant := r.fields.name, dish := d.fields.name, price := rd.price }
        else (none : Option MenuView)).length
      = rrows.countP (fun r => r.id == rd.restaurant_id)
          * ds.countP (fun d => d.id == rd.dish_id) := by
  induction rrows with
  | nil => simp
  | cons r t ih =>
      rw [List.flatMap_cons, List.length_append, join_inner_length, ih, List.countP_cons]
      by_cases h : rd.restaurant_id = r.id
      · have hbeq : (r.id == rd.restaurant_id) = true := by simp [h]
        rw [if_pos h, hbeq]
        simp
        try ring
      · have hbeq : (r.id == rd.restaurant_id) = false := by
          simp only [beq_eq_false_iff_ne, ne_eq]
          exact fun hh => h hh.symm
        rw [if_neg h, hbeq]
        simp

/-- In a list whose images under f are pairwise distinct, exactly one
element maps to any value attained. -/
theorem countP_eq_one_of_nodup_map {α : Type} (f : α → Nat) (rows : List α)
    (h : (rows.map f).Nodup) {i : Nat} (hm : ∃ r ∈ rows, f r = i) :
    rows.countP (fun r => f r == i) = 1 := by
  induction rows with
  | nil =>
      obtain ⟨r, hr, -⟩ := hm
      cases hr
  | cons r t ih =>
      rw [List.map_cons, List.nodup_cons] at h
      obtain ⟨hnot, ht⟩ := h
      rw [List.countP_cons]
      by_cases hri : f r = i
      · have h0 : t.countP (fun x => f x == i) = 0 := by
          rw [List.countP_eq_zero]
          intro a ha hab
          apply hnot
          rw [List.mem_map]
          refine ⟨a, ha, ?_⟩
          have hai : f a = i := by simpa using hab
          rw [hai, hri]
        rw [h0]
        simp [hri]
      · have hm' : ∃ a ∈ t, f a = i := by
          obtain ⟨a, ha, hai⟩ := hm
          rcases List.mem_cons.1 ha with rfl | ha'
          · exact absurd hai hri
          · exact ⟨a, ha', hai⟩
        rw [ih ht hm']
        simp [hri]

/-- The join scan over an explicit triple of tables returns exactly one
record per link row when the entity ids are pairwise distinct and every
link row resolves both foreign keys. -/
theorem join_length_aux (rrows : List RestRow) (drows : List DishRow)
    (ls : List LinkRow)
    (hr : (rrows.map (fun r => r.id)).Nodup)
    (hd : (drows.map (fun d => d.id)).Nodup)
    (hfk : ∀ rd ∈ ls, (∃ r ∈ rrows, r.id = rd.restaurant_id)
        ∧ (∃ d ∈ drows, d.id = rd.dish_id)) :
    (ls.flatMap fun rd => rrows.flatMap fun r => drows.filterMap fun d =>
        if rd.restaurant_id = r.id ∧ rd.dish_id = d.id then
          some { restaurant := r.fields.name, dish := d.fields.name, price := rd.price }
        else (none : Option MenuView)).length = ls.length := by
  induction ls with
  | nil => rfl
  | cons rd t ih =>
      rw [List.flatMap_cons, List.length_append, join_outer_length,
        countP_eq_one_of_nodup_map _ _ hr (hfk rd (List.mem_cons_self rd t)).1,
        countP_eq_one_of_nodup_map _ _ hd (hfk rd (List.mem_cons_self rd t)).2,
        ih (fun rd' h' => hfk rd' (List.mem_cons_of_mem rd h'))]
      simp [Nat.add_comm]

/-- When restaurant ids and dish ids are pairwise distinct and every
link row resolves both foreign keys, the join returns exactly one record
per link row. -/
theorem fetchAllMenuEntries_length (db : DB)
    (hr : (db.restaurants.map (fun r => r.id)).Nodup)
    (hd : (db.dishes.map (fun d => d.id)).Nodup)
    (hfk : ∀ rd ∈ db.links, (∃ r ∈ db.restaurants, r.id = rd.restaurant_id)
        ∧ (∃ d ∈ db.dishes, d.id = rd.dish_id)) :
    (fetchAllMenuEntries db).length = db.links.length :=
  join_length_aux db.restaurants db.dishes db.links hr hd hfk

/-- C5: during a bulk load the restaurant and dish rows are appended in
input order with no deduplication, one row per input record even for
duplicate names, and each loop's lookup table maps a name to the id of
the last-inserted record carrying that name. -/
theorem bulk_load_insert_order_last_write_wins (p : DB) (rs : List Restaurant)
    (ds : List Dish) (hr : p.schemaRestaurants = true) (hd : p.schemaDishes = true) :
    (insertRestaurants p [] rs
        = .ok ({ p with
                 restaurants := p.restaurants ++ restRowsFrom p.nextRestaurantId rs,
                 nextRestaurantId := p.nextRestaurantId + rs.length },
               restDictFrom p.nextRestaurantId rs)
      ∧ (restRowsFrom p.nextRestaurantId rs).map (fun row => row.fields) = rs
      ∧ ∀ n, (restDictFrom p.nextRestaurantId rs).lookup n
          = (((restRowsFrom p.nextRestaurantId rs).filter
              (fun row => row.fields.name == n)).getLast?).map (fun row => row.id))
    ∧ (insertDishes p [] ds
        = .ok ({ p with
                 dishes := p.dishes ++ dishRowsFrom p.nextDishId ds,
                 nextDishId := p.nextDishId + ds.length },
               dishDictFrom p.nextDishId ds)
      ∧ (dishRowsFrom p.nextDishId ds).map (fun row => row.fields) = ds
      ∧ ∀ n, (dishDictFrom p.nextDishId ds).lookup n
          = (((dishRowsFrom p.nextDishId ds).filter
              (fun row => row.fields.name == n)).getLast?).map (fun row => row.id)) := by
  refine ⟨⟨?_, restRowsFrom_map_fields _ _, fun n => restDict_lookup n _ _⟩,
          ⟨?_, dishRowsFrom_map_fields _ _, fun n => dishDict_lookup n _ _⟩⟩
  · simpa using insertRestaurants_closed p [] rs hr
  · simpa using insertDishes_closed p [] ds hd

/-- C5 witness: two restaurant records with the same name A, starting
from the sample store whose counter is 2, produce two rows (ids 2 and 3)
and the lookup table sends A to 3, the last-inserted id. -/
theorem bulk_load_insert_order_last_write_wins_witness :
    (restRowsFrom dbSample.nextRestaurantId [mkRestaurant "A", mkRestaurant "A"]).map
        (fun row => row.fields) = [mkRestaurant "A", mkRestaurant "A"]
    ∧ (restDictFrom dbSample.nextRestaurantId
        [mkRestaurant "A", mkRestaurant "A"]).lookup "A" = some 3 := by
  refine ⟨(bulk_load_insert_order_last_write_wins dbSample
      [mkRestaurant "A", mkRestaurant "A"] [] rfl rfl).1.2.1, ?_⟩
  rw [(bulk_load_insert_order_last_write_wins dbSample
      [mkRestaurant "A", mkRestaurant "A"] [] rfl rfl).1.2.2 "A"]
  rfl

/-- When no pending link row collides with any resolvable input link,
names resolve injectively, resolved foreign keys exist, and some input
link carries an unresolvable name, the link loop raises a KeyError, a
LookupError. -/
theorem insertLinks_bad {rdict ddict : List (String × Nat)} {ls : List LinkRec} {p : DB}
    (hschema : p.schemaLinks = true)
    (hfkr : ∀ n i, rdict.lookup n = some i → ∃ r ∈ p.restaurants, r.id = i)
    (hfkd : ∀ n i, ddict.lookup n = some i → ∃ d ∈ p.dishes, d.id = i)
    (hinjr : ∀ n1 n2 i, rdict.lookup n1 = some i → rdict.lookup n2 = some i → n1 = n2)
    (hinjd : ∀ n1 n2 i, ddict.lookup n1 = some i → ddict.lookup n2 = some i → n1 = n2)
    (hpend : ∀ lrow ∈ p.links, ∀ l ∈ ls, ∀ rid did,
        rdict.lookup l.restaurant = some rid → ddict.lookup l.dish = some did →
        ¬(lrow.restaurant_id = rid ∧ lrow.dish_id = did))
    (hpair : ls.Pairwise (fun a b => a.restaurant ≠ b.restaurant ∨ a.dish ≠ b.dish))
    (hbad : ∃ l ∈ ls, rdict.lookup l.restaurant = none ∨ ddict.lookup l.dish = none) :
    ∃ k, insertLinks p rdict ddict ls = .error (.lookupError k) := by
  induction ls generalizing p with
  | nil =>
      obtain ⟨l, hl, -⟩ := hbad
      cases hl
  | cons l rest ih =>
      rw [insertLinks]
      rcases hr : rdict.lookup l.restaurant with _ | rid
      · exact ⟨l.restaurant, rfl⟩
      · rcases hd : ddict.lookup l.dish with _ | did
        · exact ⟨l.dish, rfl⟩
        · have hcond : ((p.schemaLinks : Prop)
              ∧ (∀ lr ∈ p.links, ¬(lr.restaurant_id = rid ∧ lr.dish_id = did))
              ∧ (∃ r ∈ p.restaurants, r.id = rid)
              ∧ (∃ d ∈ p.dishes, d.id = did)) := by
            refine ⟨hschema, ?_, hfkr l.restaurant rid hr, hfkd l.dish did hd⟩
            intro lr hlr
            exact hpend lr hlr l (List.mem_cons_self l rest) rid did hr hd
          have hok : insertLinkRow p rid did l.price
              = .ok { p with links := p.links
                  ++ [{ restaurant_id := rid, dish_id := did, price := l.price }] } := by
            unfold insertLinkRow
            rw [if_pos hcond]
          simp only
          rw [hok]
          simp only
          have hbad' : ∃ lb ∈ rest,
              rdict.lookup lb.restaurant = none ∨ ddict.lookup lb.dish = none := by
            obtain ⟨lb, hlb, hor⟩ := hbad
            rcases List.mem_cons.1 hlb with rfl | hmem
            · rcases hor with h0 | h0
              · rw [h0] at hr
                cases hr
              · rw [h0] at hd
                cases hd
            · exact ⟨lb, hmem, hor⟩
          have hpend1 : ∀ lrow ∈ (p.links
                ++ [{ restaurant_id := rid, dish_id := did, price := l.price }] : List LinkRow),
              ∀ l' ∈ rest, ∀ rid' did',
              rdict.lookup l'.restaurant = some rid' → ddict.lookup l'.dish = some did' →
              ¬(lrow.restaurant_id = rid' ∧ lrow.dish_id = did') := by
            intro lrow hlrow l' hl' rid' did' hr' hd'
            rcases List.mem_append.1 hlrow with hold | hnew
            · exact hpend lrow hold l' (List.mem_cons_of_mem l hl') rid' did' hr' hd'
            · rcases List.mem_cons.1 hnew with rfl | hnil
              · rintro ⟨h1, h2⟩
                have h1' : rid = rid' := h1
                have h2' : did = did' := h2
                rw [← h1'] at hr'
                rw [← h2'] at hd'
                have hre : l.restaurant = l'.restaurant := hinjr _ _ _ hr hr'
                have hdi : l.dish = l'.dish := hinjd _ _ _ hd hd'
                rcases (List.pairwise_cons.1 hpair).1 l' hl' with hne | hne
                · exact hne hre
                · exact hne hdi
              · cases hnil
          exact ih (p := { p with links := p.links
              ++ [{ restaurant_id := rid, dish_id := did, price := l.price }] })
            hschema hfkr hfkd hpend1 (List.Pairwise.of_cons hpair) hbad'

/-- C2 counterexample: the third link references a dish name C absent
from the dish fixture, yet the seeding run fails with a StoreError, not a
LookupError, because the duplicated first link violates the primary key
of restaurant_dishes before the loop reaches the bad link. -/
theorem link_name_miss_cex :
    (({ restaurant := "A", dish := "C", price := 2 } : LinkRec)
        ∈ ([{ restaurant := "A", dish := "B", price := 1 },
            { restaurant := "A", dish := "B", price := 1 },
            { restaurant := "A", dish := "C", price := 2 }] : List LinkRec)
      ∧ ("C" : String) ∉ ([mkDish "B"].map Dish.name))
    ∧ (seed_database DB.empty [mkRestaurant "A"] [mkDish "B"]
        [{ restaurant := "A", dish := "B", price := 1 },
         { restaurant := "A", dish := "B", price := 1 },
         { restaurant := "A", dish := "C", price := 2 }] true).1 = .error .storeError
    ∧ ∀ k, (seed_database DB.empty [mkRestaurant "A"] [mkDish "B"]
        [{ restaurant := "A", dish := "B", price := 1 },
         { restaurant := "A", dish := "B", price := 1 },
         { restaurant := "A", dish := "C", price := 2 }] true).1
        ≠ .error (.lookupError k) := by
  refine ⟨⟨by decide, by decide⟩, rfl, fun k h => ?_⟩
  exact SeedError.noConfusion (Except.error.inj h)

/-- C2 amended: in a seeding run whose link list has pairwise distinct
(restaurant name, dish name) pairs, a link record whose restaurant or
dish name is not among the just-inserted names makes the bulk load raise
a LookupError, with no fallback and no creation-on-demand, and after the
failed run the committed store is the original one: no restaurant, dish
or link row of the run survives. -/
theorem link_name_miss_raises_lookup_error (db : DB) (rs : List Restaurant)
    (ds : List Dish) (ls : List LinkRec)
    (hpair : ls.Pairwise (fun a b => a.restaurant ≠ b.restaurant ∨ a.dish ≠ b.dish))
    (hbad : ∃ l ∈ ls, l.restaurant ∉ rs.map Restaurant.name ∨ l.dish ∉ ds.map Dish.name) :
    (∃ k, (seed_database db rs ds ls true).1 = .error (.lookupError k))
    ∧ (seed_database db rs ds ls true).2 = db := by
  have hrun := runInserts_eq (truncate_all (create_tables db)) rs ds ls rfl rfl
  have hfkr : ∀ n i,
      (restDictFrom (truncate_all (create_tables db)).nextRestaurantId rs).lookup n = some i →
      ∃ r ∈ (truncate_all (create_tables db)).restaurants
          ++ restRowsFrom (truncate_all (create_tables db)).nextRestaurantId rs, r.id = i := by
    intro n i hl
    obtain ⟨row, hm, hid, -⟩ := restDict_lookup_some hl
    exact ⟨row, List.mem_append.2 (.inr hm), hid⟩
  have hfkd : ∀ n i,
      (dishDictFrom (truncate_all (create_tables db)).nextDishId ds).lookup n = some i →
      ∃ d ∈ (truncate_all (create_tables db)).dishes
          ++ dishRowsFrom (truncate_all (create_tables db)).nextDishId ds, d.id = i := by
    intro n i hl
    obtain ⟨row, hm, hid, -⟩ := dishDict_lookup_some hl
    exact ⟨row, List.mem_append.2 (.inr hm), hid⟩
  have hbad' : ∃ l ∈ ls,
      (restDictFrom (truncate_all (create_tables db)).nextRestaurantId rs).lookup
          l.restaurant = none
      ∨ (dishDictFrom (truncate_all (create_tables db)).nextDishId ds).lookup
          l.dish = none := by
    obtain ⟨l, hl, hor⟩ := hbad
    refine ⟨l, hl, ?_⟩
    rcases hor with h0 | h0
    · exact .inl (restDict_lookup_none h0)
    · exact .inr (dishDict_lookup_none h0)
  obtain ⟨k, hk⟩ := insertLinks_bad
    (p := { truncate_all (create_tables db) with
            restaurants := (truncate_all (create_tables db)).restaurants
              ++ restRowsFrom (truncate_all (create_tables db)).nextRestaurantId rs,
            dishes := (truncate_all (create_tables db)).dishes
              ++ dishRowsFrom (truncate_all (create_tables db)).nextDishId ds,
            nextRestaurantId := (truncate_all (create_tables db)).nextRestaurantId + rs.length,
            nextDishId := (truncate_all (create_tables db)).nextDishId + ds.length })
    rfl hfkr hfkd
    (fun n1 n2 i h1 h2 => restDict_lookup_inj h1 h2)
    (fun n1 n2 i h1 h2 => dishDict_lookup_inj h1 h2)
    (fun lrow hlrow => absurd hlrow (List.not_mem_nil lrow))
    hpair hbad'
  have hrun' : runInserts (truncate_all (create_tables db)) rs ds ls
      = .error (.lookupError k) := hrun.trans hk
  refine ⟨⟨k, ?_⟩, ?_⟩
  · simp [seed_database, hrun']
  · exact seed_database_rollback db rs ds ls true (.lookupError k)
      (by simp [seed_database, hrun'])

/-- C2 amended witness: a single link naming the absent dish C makes the
seeding run raise a LookupError and leave the empty store empty. -/
theorem link_name_miss_raises_lookup_error_witness :
    (∃ k, (seed_database DB.empty [mkRestaurant "A"] []
        [{ restaurant := "A", dish := "C", price := 1 }] true).1
        = .error (.lookupError k))
    ∧ (seed_database DB.empty [mkRestaurant "A"] []
        [{ restaurant := "A", dish := "C", price := 1 }] true).2 = DB.empty :=
  link_name_miss_raises_lookup_error DB.empty [mkRestaurant "A"] []
    [{ restaurant := "A", dish := "C", price := 1 }]
    (by simp)
    ⟨{ restaurant := "A", dish := "C", price := 1 },
      List.mem_cons_self _ _, .inr (by simp)⟩

/-- One restaurant row per input record. -/
theorem restRowsFrom_length (n0 : Nat) (rs : List Restaurant) :
    (restRowsFrom n0 rs).length = rs.length := by
  have h := congrArg List.length (restRowsFrom_map_fields n0 rs)
  simpa using h

/-- One dish row per input record. -/
theorem dishRowsFrom_length (n0 : Nat) (ds : List Dish) :
    (dishRowsFrom n0 ds).length = ds.length := by
  have h := congrArg List.length (dishRowsFrom_map_fields n0 ds)
  simpa using h

/-- C6 counterexample: with empty restaurant and dish fixtures (names
trivially distinct) and one link, the claimed round trip fails: the load
raises and the store stays empty, so reading back yields zero menu
entries against one input link. -/
theorem round_trip_counts_cex :
    (([] : List Restaurant).map Restaurant.name).Nodup
    ∧ (([] : List Dish).map Dish.name).Nodup
    ∧ (fetchAllMenuEntries (seed_database DB.empty [] []
          [{ restaurant := "X", dish := "Y", price := 1 }] true).2).length
      ≠ ([{ restaurant := "X", dish := "Y", price := 1 }] : List LinkRec).length :=
  ⟨List.nodup_nil, List.nodup_nil, by decide⟩

/-- C6 amended: when a seeding run over an empty store completes without
error, reading everything back yields exactly as many restaurants,
dishes and menu entries as the input fixtures contained, the name
distinctness hypotheses of the claim being granted. -/
theorem round_trip_counts (rs : List Restaurant) (ds : List Dish) (ls : List LinkRec)
    (db2 : DB)
    (hrn : (rs.map Restaurant.name).Nodup) (hdn : (ds.map Dish.name).Nodup)
    (hok : seed_database DB.empty rs ds ls true = (.ok (), db2)) :
    (fetchAllRestaurants db2).length = rs.length
    ∧ (fetchAllDishes db2).length = ds.length
    ∧ (fetchAllMenuEntries db2).length = ls.length := by
  have hrun := runInserts_eq (truncate_all (create_tables DB.empty)) rs ds ls rfl rfl
  unfold seed_database at hok
  rcases hm : runInserts (truncate_all (create_tables DB.empty)) rs ds ls with e | p3
  · rw [hm] at hok
    simp at hok
  · rw [hm] at hok
    simp at hok
    subst hok
    have hlinks := hrun.symm.trans hm
    obtain ⟨-, -, -, h4, h5, -, -, h8, -, h10⟩ := insertLinks_ok hlinks
    have hridsnodup : (p3.restaurants.map (fun r => r.id)).Nodup := by
      rw [h4]
      exact restRowsFrom_ids_nodup 1 rs
    have hdidsnodup : (p3.dishes.map (fun d => d.id)).Nodup := by
      rw [h5]
      exact dishRowsFrom_ids_nodup 1 ds
    have hfk : ∀ rd ∈ p3.links, (∃ r ∈ p3.restaurants, r.id = rd.restaurant_id)
        ∧ (∃ d ∈ p3.dishes, d.id = rd.dish_id) := by
      intro rd hrd
      rcases h10 rd hrd with hin | ⟨l, hl, ha, hb, -⟩
      · exact absurd hin (List.not_mem_nil rd)
      · constructor
        · obtain ⟨row, hm', hid, -⟩ := restDict_lookup_some ha
          rw [h4]
          exact ⟨row, List.mem_append.2 (.inr hm'), hid⟩
        · obtain ⟨row, hm', hid, -⟩ := dishDict_lookup_some hb
          rw [h5]
          exact ⟨row, List.mem_append.2 (.inr hm'), hid⟩
    refine ⟨?_, ?_, ?_⟩
    · show p3.restaurants.length = rs.length
      rw [h4]
      exact restRowsFrom_length 1 rs
    · show p3.dishes.length = ds.length
      rw [h5]
      exact dishRowsFrom_length 1 ds
    · rw [fetchAllMenuEntries_length p3 hridsnodup hdidsnodup hfk]
      simpa [truncate_all, create_tables] using h8

/-- C6 amended witness: the one-restaurant, one-dish, one-link fixture
loads into the empty store and reads back with counts 1, 1, 1. -/
theorem round_trip_counts_witness :
    (fetchAllRestaurants (seed_database DB.empty [mkRestaurant "A"] [mkDish "B"]
        [{ restaurant := "A", dish := "B", price := 5 }] true).2).length
      = [mkRestaurant "A"].length
    ∧ (fetchAllDishes (seed_database DB.empty [mkRestaurant "A"] [mkDish "B"]
        [{ restaurant := "A", dish := "B", price := 5 }] true).2).length
      = [mkDish "B"].length
    ∧ (fetchAllMenuEntries (seed_database DB.empty [mkRestaurant "A"] [mkDish "B"]
        [{ restaurant := "A", dish := "B", price := 5 }] true).2).length
      = ([{ restaurant := "A", dish := "B", price := 5 }] : List LinkRec).length :=
  round_trip_counts [mkRestaurant "A"] [mkDish "B"]
    [{ restaurant := "A", dish := "B", price := 5 }] _ (by decide) (by decide) rfl

/-- C9: the destructive reset is its own operation, emptying the three
tables; a successful appending run only extends each table at the end,
never removing an existing row; and a successful seeding run leaves
exactly the newly inserted rows, the reset being part of the seeding
script only. -/
theorem reset_explicit_append_preserves (db : DB) (rs : List Restaurant)
    (ds : List Dish) (ls : List LinkRec) :
    ((truncate_all db).restaurants = [] ∧ (truncate_all db).dishes = []
      ∧ (truncate_all db).links = [])
    ∧ (∀ db1, add_records db rs ds ls = (.ok (), db1) →
        (∃ t, db1.restaurants = db.restaurants ++ t)
        ∧ (∃ t, db1.dishes = db.dishes ++ t)
        ∧ (∃ t, db1.links = db.links ++ t))
    ∧ (∀ db2, seed_database db rs ds ls true = (.ok (), db2) →
        db2.restaurants = restRowsFrom db.nextRestaurantId rs
        ∧ db2.dishes = dishRowsFrom db.nextDishId ds) := by
  refine ⟨⟨rfl, rfl, rfl⟩, ?_, ?_⟩
  · intro db1 hok
    unfold add_records at hok
    rcases hm : runInserts db rs ds ls with e | p3
    · rw [hm] at hok
      simp at hok
    · rw [hm] at hok
      simp at hok
      subst hok
      unfold runInserts at hm
      rcases hr : insertRestaurants db [] rs with e1 | q1
      · rw [hr] at hm
        cases hm
      · rw [hr] at hm
        obtain ⟨p1, rdict⟩ := q1
        simp only at hm
        rcases hd2 : insertDishes p1 [] ds with e2 | q2
        · rw [hd2] at hm
          cases hm
        · rw [hd2] at hm
          obtain ⟨p2, ddict⟩ := q2
          simp only at hm
          obtain ⟨⟨t1, hres⟩, hdish, hlinks, -, -, -, -⟩ := insertRestaurants_frame hr
          obtain ⟨⟨t2, hdish2⟩, hres2, hlinks2, -, -, -, -⟩ := insertDishes_frame hd2
          obtain ⟨-, -, -, h4, h5, -, -, -, ⟨t3, h9⟩, -⟩ := insertLinks_ok hm
          refine ⟨⟨t1, ?_⟩, ⟨t2, ?_⟩, ⟨t3, ?_⟩⟩
          · rw [h4, hres2, hres]
          · rw [h5, hdish2, hdish]
          · rw [h9, hlinks2, hlinks]
  · intro db2 hok
    have hrun := runInserts_eq (truncate_all (create_tables db)) rs ds ls rfl rfl
    unfold seed_database at hok
    rcases hm : runInserts (truncate_all (create_tables db)) rs ds ls with e | p3
    · rw [hm] at hok
      simp at hok
    · rw [hm] at hok
      simp at hok
      subst hok
      have hlinks := hrun.symm.trans hm
      obtain ⟨-, -, -, h4, h5, -, -, -, -, -⟩ := insertLinks_ok hlinks
      constructor
      · rw [h4]
        rfl
      · rw [h5]
        rfl

/-- C9 witness: appending one restaurant and one dish to the sample
store keeps its existing rows as a prefix, while seeding the same inputs
replaces the rows with exactly the new ones. -/
theorem reset_explicit_append_preserves_witness :
    (∃ t, (add_records dbSample [mkRestaurant "N"] [mkDish "M"] []).2.restaurants
        = dbSample.restaurants ++ t)
    ∧ (seed_database dbSample [mkRestaurant "N"] [mkDish "M"] [] true).2.restaurants
        = restRowsFrom dbSample.nextRestaurantId [mkRestaurant "N"] :=
  ⟨((reset_explicit_append_preserves dbSample [mkRestaurant "N"] [mkDish "M"] []).2.1
      (add_records dbSample [mkRestaurant "N"] [mkDish "M"] []).2 rfl).1,
   ((reset_explicit_append_preserves dbSample [mkRestaurant "N"] [mkDish "M"] []).2.2
      (seed_database dbSample [mkRestaurant "N"] [mkDish "M"] [] true).2 rfl).1⟩
